import Mathlib

/-!
Verification development for the home-health reconciliation core
(`src/profitability_analysis.py` and `src/etl_pipeline.py`).

The Python code is shallowly embedded: strings are Lean `String`s
(Python's `str` methods are modelled on ASCII, which covers every name
and keyword the code manipulates), floating-point amounts are modelled
as exact rationals `ℚ`, pandas dataframes become lists of records, and
the SQLite patient/visit tables become lists carried through explicit
state passing (rowid order = list order).
-/

/- Batteries marks the `Rat` arithmetic operations `@[irreducible]`, which
blocks `decide` on concrete rational facts; restore the default so the
embedded financial arithmetic evaluates. -/
set_option allowUnsafeReducibility true in
attribute [semireducible] Rat.add Rat.mul Rat.inv Rat.sub Rat.div

namespace HomeHealth

/-! ### Python string primitives -/

/-- Python `str.strip()` whitespace class (ASCII part: space, \t, \n, \r, \v, \f). -/
def pyWsChar (c : Char) : Bool :=
  c = ' ' || c = '\t' || c = '\n' || c = '\r' || c = '\x0b' || c = '\x0c'

/-- Python `s.strip()`: drop leading and trailing whitespace. -/
def pyStrip (s : String) : String :=
  ⟨((s.data.dropWhile pyWsChar).reverse.dropWhile pyWsChar).reverse⟩

/-- Python `s.lower()` (ASCII case folding, which `Char.toLower` implements). -/
def pyLower (s : String) : String :=
  ⟨s.data.map Char.toLower⟩

/-- Python two-sided strip over a character set (the one-argument form of strip). -/
def pyStripSet (cs : List Char) (s : String) : String :=
  ⟨((s.data.dropWhile cs.contains).reverse.dropWhile cs.contains).reverse⟩

/-- Python substring test `needle in hay` on char lists. -/
def substrAux (needle hay : List Char) : Bool :=
  (List.range (hay.length + 1)).any fun i => needle.isPrefixOf (hay.drop i)

/-- Python substring test `needle in hay`. -/
def pyContains (hay needle : String) : Bool :=
  substrAux needle.data hay.data

/-- Python `s.split()` (split on whitespace runs, discarding empty fields),
implemented by a right fold that carries the token being accumulated. -/
def pySplitWs (s : String) : List String :=
  let step : Char → List Char × List String → List Char × List String :=
    fun c (cur, toks) =>
      if pyWsChar c then ([], if cur.isEmpty then toks else String.mk cur :: toks)
      else (c :: cur, toks)
  let (cur, toks) := s.data.foldr step ([], [])
  if cur.isEmpty then toks else String.mk cur :: toks

/-- Split a char list at the first occurrence of `sep`; `none` when absent.
Models Python `s.split(sep, 1)` producing two fields. -/
def breakAtFirst (sep : Char) : List Char → Option (List Char × List Char)
  | [] => none
  | c :: cs =>
    if c = sep then some ([], cs)
    else match breakAtFirst sep cs with
      | some (l, r) => some (c :: l, r)
      | none => none

/-- Python one-shot comma split (maxsplit 1) when a comma is present. -/
def pySplitFirstComma (s : String) : Option (String × String) :=
  (breakAtFirst ',' s.data).map fun (l, r) => (⟨l⟩, ⟨r⟩)

/-- Python code-point comparison of two strings (`sorted` key order). -/
def strLeB : List Char → List Char → Bool
  | [], _ => true
  | _ :: _, [] => false
  | a :: as, b :: bs => if a = b then strLeB as bs else decide (a < b)

/-- Stable insertion of `x` into a `le`-sorted list, `x` placed before later
equal elements (matches Python's stable `sorted`/`list.sort`). -/
def insertLe (le : α → α → Bool) (x : α) : List α → List α
  | [] => [x]
  | y :: ys => if le x y then x :: y :: ys else y :: insertLe le x ys

/-- Stable insertion sort (models Python `sorted` / `list.sort`). -/
def insSort (le : α → α → Bool) : List α → List α
  | [] => []
  | x :: xs => insertLe le x (insSort le xs)

/-- Python `sorted` on strings. -/
def pySorted (l : List String) : List String :=
  insSort (fun a b => strLeB a.data b.data) l

/-! ### NameNormalizer — `ProfitabilityAnalyzer.normalize_name`
(src/profitability_analysis.py lines 46-54).

The chain of three single-character replace calls (dot to nothing, comma to
space, slash to space) never creates new occurrences of a later pattern, so
it is modelled as one character map. -/

/-- Character map of the replace chain: the dot is deleted, comma and slash
each become a space, every other character is kept. -/
def replChar (c : Char) : Option Char :=
  if c = '.' then none
  else if c = ',' then some ' '
  else if c = '/' then some ' '
  else some c

/-- The NameKey computation `normalize_name`.  (Since the caller has already
cast the column to `str`, the `pd.isna` test cannot fire and the guard
reduces to the empty string and the literal nan string.) -/
def normalize_name (name : String) : String :=
  if name = "" ∨ name = "nan" then ""
  else
    let s := pyLower (pyStrip name)
    let mapped : String := ⟨s.data.filterMap replChar⟩
    let parts := pySplitWs mapped
    String.intercalate " " (pySorted parts)

/-! ### SimilarityScorer

Modelled from the spec: the two scoring routines the code calls —
`difflib.SequenceMatcher(None, a, b).ratio()` in
`src/profitability_analysis.py` and `fuzzywuzzy.fuzz.ratio(a, b) / 100`
in `src/etl_pipeline.py` — are standard-library / third-party code whose
source is not under `src/`. Spec §4.2 describes the scorer as a
longest-common-subsequence-based symmetric ratio in `[0,1]`; both library
routines compute `2*M/T` where `M` is a common-subsequence length and
`T` the total length (with ratio `1.0` when both strings are empty),
which is the definition used here. -/

/-- One step of the LCS recursion: given `g = lcsLen as`, computes
`lcsLen (a :: as)` by structural recursion on the second list. -/
def lcsStep (a : Char) (g : List Char → Nat) : List Char → Nat
  | [] => 0
  | b :: bs => if a = b then g bs + 1 else max (lcsStep a g bs) (g (b :: bs))

/-- Longest-common-subsequence length of two char lists. -/
def lcsLen : List Char → List Char → Nat
  | [], _ => 0
  | a :: as, bs => lcsStep a (lcsLen as) bs

/-- The similarity ratio: twice the LCS length over the total length of the
two strings, and 1 for two empty strings. -/
def simScore (a b : String) : ℚ :=
  if a.data.length + b.data.length = 0 then 1
  else (2 * lcsLen a.data b.data : ℚ) / ((a.data.length : ℚ) + (b.data.length : ℚ))

/-! ### CostCategorizer — `_categorize_cost_record`
(src/profitability_analysis.py lines 63-97).

The physician lookup is an association list `(norm_name, physician,
patient_name)` in dict iteration order; `analyze` builds it with a
groupby-first, i.e. keys in sorted order, values first-seen. -/

inductive Category
  | MATCHED
  | UNMATCHED
  | OVERHEAD
  | NO_PATIENT
deriving DecidableEq

/-- One lookup entry: normalized key, its physician, its claim patient name. -/
abbrev LookupEntry := String × String × String

/-- The fixed overhead keyword list. -/
def overhead_keywords : List String :=
  ["total", "note", "office", "intake", "pay", "attached",
   "october", "expense", "see ", "monthly"]

/-- The fuzzy scan inside `_categorize_cost_record`: tracks
`(best_score, best_match, best_claim_name)`; an update needs
`score > best_score and score > 0.7`. -/
def categorizeFuzzyFold (norm : String) (lookup : List LookupEntry) :
    ℚ × Option (String × String) :=
  lookup.foldl
    (fun acc e =>
      let score := simScore norm e.1
      if acc.1 < score ∧ (7 : ℚ)/10 < score then (score, some (e.2.1, e.2.2)) else acc)
    (0, none)

/-- The categorizer `_categorize_cost_record`.  The norm_name column is
precomputed by `analyze` as `normalize_name` of the raw name.  The final
`if best_match:` tests Python string truthiness, so a best match whose
physician is the empty string falls through to `UNMATCHED`. -/
def categorize (rawName : String) (lookup : List LookupEntry) :
    Category × Option String × Option String :=
  let patient := pyStrip rawName
  if patient = "" ∨ patient = "nan" then (.NO_PATIENT, none, none)
  else if overhead_keywords.any (fun kw => pyContains (pyLower patient) kw) then
    (.OVERHEAD, none, none)
  else
    let norm := normalize_name rawName
    match lookup.find? (fun e => e.1 == norm) with
    | some e => (.MATCHED, some e.2.1, some e.2.2)
    | none =>
      match (categorizeFuzzyFold norm lookup).2 with
      | some (phys, cname) =>
        if phys = "" then (.UNMATCHED, none, none)
        else (.MATCHED, some phys, some cname)
      | none => (.UNMATCHED, none, none)

/-! ### IdentityResolver — `HomeHealthETL.extract_patient_id_from_name` and
`find_or_create_patient` (src/etl_pipeline.py lines 178-299).

The `patients` SQLite table becomes a list in rowid (insertion) order;
`SELECT` scans follow that order.  Database exceptions (the only source of a
`None` return) are outside the model, so resolution is total.  The
`fuzzy_matching` config flag defaults to true and is modelled as enabled. -/

structure Patient where
  patient_id : Nat
  patient_name : String
  first_name : String
  last_name : String
deriving DecidableEq

/-- Read a run of ASCII digits as a number (`int(...)` on the regex group;
`\d` is modelled as ASCII digits). -/
def digitsToNat (ds : List Char) : Nat :=
  ds.foldl (fun n c => n * 10 + (c.toNat - '0'.toNat)) 0

/-- At the head of the list, match `\(\d+\)` and return the remainder. -/
def matchParenDigits : List Char → Option (List Char)
  | '(' :: rest =>
    let ds := rest.takeWhile Char.isDigit
    if ds ≠ [] ∧ (rest.drop ds.length).head? = some ')' then
      some ((rest.drop ds.length).drop 1)
    else none
  | _ => none

/-- First parenthesized integer in the string (the re.search step of the
name extractor, pattern: open paren, digits, close paren). -/
def findParenId : List Char → Option Nat
  | [] => none
  | c :: cs =>
    if c = '(' then
      let ds := cs.takeWhile Char.isDigit
      if ds ≠ [] ∧ (cs.drop ds.length).head? = some ')' then some (digitsToNat ds)
      else findParenId cs
    else findParenId cs

/-- The re.sub step of the name extractor: drop every parenthesized integer
together with the whitespace run before it.  A match can only start at the
head of the whitespace run preceding a valid group, so the scan tries that
and otherwise advances one character.  Fuel (the list length) stands in for
the non-structural recursion after a removal. -/
def removeParenIdsAux : Nat → List Char → List Char
  | 0, l => l
  | _ + 1, [] => []
  | fuel + 1, c :: cs =>
    let l := c :: cs
    let ws := l.takeWhile pyWsChar
    match matchParenDigits (l.drop ws.length) with
    | some rem => removeParenIdsAux fuel rem
    | none => c :: removeParenIdsAux fuel cs

def removeParenIds (l : List Char) : List Char :=
  removeParenIdsAux l.length l

/-- Render the full name in the last-comma-first format, then strip commas
and spaces from both ends. -/
def mkFullName (last first : String) : String :=
  pyStripSet [',', ' '] (last ++ ", " ++ first)

/-- The name splitter `extract_patient_id_from_name`: returns
the explicit id with the first, last and full name. -/
def extract_patient_id_from_name (patient_name : String) :
    Option Nat × String × String × String :=
  if patient_name = "" then (none, "", "", "")
  else
    let name0 := pyStrip patient_name
    let pid := findParenId name0.data
    let name := if pid.isSome then pyStrip ⟨removeParenIds name0.data⟩ else name0
    match pySplitFirstComma name with
    | some (l, r) =>
      let last := pyStrip l
      let first := pyStrip r
      (pid, first, last, mkFullName last first)
    | none =>
      match pySplitWs name with
      | p :: q :: rest =>
        let first := pyStrip p
        let last := pyStrip (String.intercalate " " (q :: rest))
        (pid, first, last, mkFullName last first)
      | _ =>
        let last := pyStrip name
        (pid, "", last, mkFullName last "")

/-- Maximum patient id over the registry, 0 when empty. -/
def maxPatientId (reg : List Patient) : Nat :=
  reg.foldl (fun m p => max m p.patient_id) 0

/-- The fuzzy-candidate loop: tracks `(best_score, best_match)`; an update
needs `score > best_score and score >= threshold` with threshold `0.85`. -/
def fuzzyFold (full : String) (acc : ℚ × Option Nat) (p : Patient) : ℚ × Option Nat :=
  let score := simScore (pyLower full) (pyLower p.patient_name)
  if acc.1 < score ∧ (85 : ℚ)/100 ≤ score then (score, some p.patient_id) else acc

/-- The fuzzy-matching block of `find_or_create_patient`: candidates share
`last_name` or `first_name`; the final `if best_match:` tests Python int
truthiness, so a best match whose id is `0` is discarded. -/
def fuzzyFindPatient (reg : List Patient) (first last full : String) : Option Nat :=
  let candidates := reg.filter fun p => p.last_name == last || p.first_name == first
  match (candidates.foldl (fuzzyFold full) (0, none)).2 with
  | some n => if n = 0 then none else some n
  | none => none

/-- The resolver `find_or_create_patient`: returns the resolved id and the
updated registry.  `INSERT OR REPLACE` is modelled as an append — the create branch
is only reached with an id absent from the registry (explicit id whose exact
lookup failed, or the fresh `max+1`). -/
def find_or_create_patient (patientId? : Option Nat) (patientName : String)
    (reg : List Patient) : Nat × List Patient :=
  let e := extract_patient_id_from_name patientName
  -- `if patient_id is None: patient_id = pid`
  let pid := if patientId?.isNone then e.1 else patientId?
  -- `if patient_id:` — exact lookup, skipped for `None` and for `0`
  let exact : Option Nat :=
    match pid with
    | some n =>
      if n ≠ 0 ∧ reg.any (fun p => p.patient_id == n) = true then some n else none
    | none => none
  let found : Option Nat :=
    match exact with
    | some n => some n
    | none => fuzzyFindPatient reg e.2.1 e.2.2.1 e.2.2.2
  match found with
  | some n => (n, reg)
  | none =>
    let newId :=
      match pid with
      | some n => if n = 0 then maxPatientId reg + 1 else n
      | none => maxPatientId reg + 1
    (newId,
     reg ++ [{ patient_id := newId, patient_name := e.2.2.2,
               first_name := e.2.1, last_name := e.2.2.1 }])

/-! ### DuplicateGuard — `store_visits` (src/etl_pipeline.py lines 600-665). -/

/-- A stored row of the `visits` table (the columns of the duplicate key;
the remaining columns play no role in any claim). -/
structure Visit where
  patient_id : Nat
  visit_date : String
  service_code : String
deriving DecidableEq

/-- An incoming visit record as `store_visits` reads it: the optional
explicit patient id and the name, date and service-code fields. -/
structure VisitRow where
  patientId? : Option Nat := none
  patient_name : String
  visit_date : String
  service_code : String
deriving DecidableEq

structure DB where
  patients : List Patient
  visits : List Visit
deriving DecidableEq

/-- The duplicate check `SELECT visit_id FROM visits WHERE patient_id = ?
AND visit_date = ? AND service_code = ?`. -/
def visitExists (ws : List Visit) (pid : Nat) (v : VisitRow) : Bool :=
  ws.any fun w =>
    w.patient_id == pid && w.visit_date == v.visit_date && w.service_code == v.service_code

/-- Whether the visit's resolved duplicate key is already stored in `db`. -/
def dupHolds (db : DB) (v : VisitRow) : Bool :=
  visitExists db.visits (find_or_create_patient v.patientId? v.patient_name db.patients).1 v

/-- The body of the `store_visits` loop for one record: resolve the patient,
skip silently on a duplicate `(patient_id, visit_date, service_code)`,
otherwise insert.  (`if not patient_id:` only fires on the exception path of
the resolver, which the model excludes; the resolver never returns id 0.) -/
def storeVisit (db : DB) (v : VisitRow) : DB :=
  let r := find_or_create_patient v.patientId? v.patient_name db.patients
  if visitExists db.visits r.1 v then
    { patients := r.2, visits := db.visits }
  else
    { patients := r.2,
      visits := db.visits ++ [{ patient_id := r.1, visit_date := v.visit_date,
                                service_code := v.service_code }] }

/-- The loop of `store_visits` over the parsed visit list. -/
def storeVisits (db : DB) (vs : List VisitRow) : DB :=
  vs.foldl storeVisit db

/-! ### ReconciliationAggregator — `ProfitabilityAnalyzer.analyze` and
`_build_results` (src/profitability_analysis.py lines 99-232).

Currency values are exact rationals.  `round(x, 1)` is Python's
round-half-to-even at one decimal.  Pandas `groupby` iterates group keys in
sorted order while `.first()` takes the value of the earliest row, and dict
iteration follows that sorted key order. -/

/-- A row of the claims dataframe (`Claim List.csv`): the columns
`_build_results` reads. -/
structure ClaimRow where
  patient_name : String      -- column: Patient Name
  physician : String         -- column: Primary Physician
  claim_code : String        -- column: Claim Code
  paid : ℚ                   -- column: Paid Amount
  billed : ℚ                 -- column: Claim Amount
deriving DecidableEq

/-- A row of the cost ledger (`employee_costs.xlsx`): the columns the
categorizer and aggregator read (`Physician` holds the employee name). -/
structure CostRow where
  patient_name : String      -- column: Patient_Name
  employee : String          -- column: Physician (the employee name)
  amount : ℚ                 -- column: Total_Amount
deriving DecidableEq

/-- A categorized cost row (the three derived columns `analyze` appends). -/
structure CatRow where
  row : CostRow
  category : Category
  matched_physician : Option String
  matched_claim_patient : Option String
deriving DecidableEq

/-- Round-half-to-even to an integer (Python `round` semantics, exact on ℚ). -/
def roundHalfEven (x : ℚ) : ℤ :=
  let f := Rat.floor x
  let r := x - (f : ℚ)
  if r < 1/2 then f
  else if 1/2 < r then f + 1
  else if f % 2 = 0 then f else f + 1

/-- Python `round(x, 1)`. -/
def pyRound1 (x : ℚ) : ℚ :=
  (roundHalfEven (x * 10) : ℚ) / 10

/-- Sorted-unique values of a string column (pandas `groupby` key order). -/
def groupKeys (l : List String) : List String :=
  pySorted l.dedup

/-- The lookup builder `_build_physician_lookup`: a groupby-first over the
normalized name, giving (norm name, first physician, first patient name)
with keys in sorted order and first-seen-wins values. -/
def buildPhysicianLookup (claims : List ClaimRow) : List LookupEntry :=
  (groupKeys (claims.map fun c => normalize_name c.patient_name)).filterMap fun k =>
    (claims.find? fun c => normalize_name c.patient_name == k).map fun c =>
      (k, c.physician, c.patient_name)

/-- The categorization pass of `analyze` over the cost dataframe. -/
def categorizeCosts (lookup : List LookupEntry) (costs : List CostRow) : List CatRow :=
  costs.map fun r =>
    let t := categorize r.patient_name lookup
    { row := r, category := t.1, matched_physician := t.2.1,
      matched_claim_patient := t.2.2 }

/-- Sum of the `Total_Amount` column. -/
def sumAmounts (l : List CostRow) : ℚ :=
  (l.map (·.amount)).sum

def sumCatAmounts (l : List CatRow) : ℚ :=
  (l.map (·.row.amount)).sum

/-- The `overall` dictionary of `_build_results`. -/
structure Overall where
  total_revenue : ℚ
  total_costs : ℚ
  matched_costs : ℚ
  unmatched_costs : ℚ
  overhead_costs : ℚ
  gross_profit : ℚ
  profit_margin : ℚ
  total_claims : Nat
  unique_patients : Nat
  unique_physicians : Nat
deriving DecidableEq

/-- One entry of the `by_physician` list. -/
structure PhysRow where
  physician : String
  revenue : ℚ
  billed : ℚ
  direct_costs : ℚ
  profit : ℚ
  margin : ℚ
  patients : Nat
  claims : Nat
  has_matched_costs : Bool
deriving DecidableEq

/-- The structured result (the audit listings `unmatched_patients` /
`overhead` and `generated_at` are outside every claim and not modelled). -/
structure Results where
  overall : Overall
  by_physician : List PhysRow
deriving DecidableEq

/-- The per-physician record built from the two `groupby` aggregations. -/
def mkPhysRow (claims : List ClaimRow) (matched : List CatRow) (phys : String) :
    PhysRow :=
  let rows := claims.filter fun c => c.physician == phys
  let revenue := (rows.map (·.paid)).sum
  let billed := (rows.map (·.billed)).sum
  let direct := sumCatAmounts (matched.filter fun m => m.matched_physician == some phys)
  let profit := revenue - direct
  let margin := if revenue > 0 then profit / revenue * 100 else 0
  { physician := phys, revenue := revenue, billed := billed,
    direct_costs := direct, profit := profit, margin := pyRound1 margin,
    patients := (rows.map (·.patient_name)).dedup.length,
    claims := rows.length,
    has_matched_costs := decide (direct > 0) }

/-- The result builder `_build_results` on the already-categorized dataset. -/
def buildResults (claims : List ClaimRow) (cat : List CatRow) : Results :=
  let matched := cat.filter fun r => r.category == Category.MATCHED
  let unmatched := cat.filter fun r => r.category == Category.UNMATCHED
  let overheadB := cat.filter fun r =>
    r.category == Category.OVERHEAD || r.category == Category.NO_PATIENT
  let total_revenue := (claims.map (·.paid)).sum
  let total_costs := (cat.map (·.row.amount)).sum
  let gross_profit := total_revenue - total_costs
  let profit_margin := if total_revenue > 0 then gross_profit / total_revenue * 100 else 0
  let physRows :=
    (groupKeys (claims.map (·.physician))).map (mkPhysRow claims matched)
  { overall :=
      { total_revenue := total_revenue
        total_costs := total_costs
        matched_costs := sumCatAmounts matched
        unmatched_costs := sumCatAmounts unmatched
        overhead_costs := sumCatAmounts overheadB
        gross_profit := gross_profit
        profit_margin := pyRound1 profit_margin
        total_claims := claims.length
        unique_patients := (claims.map (·.patient_name)).dedup.length
        unique_physicians := (claims.map (·.physician)).dedup.length }
    by_physician :=
      -- the stable descending-by-revenue sort of physician_data
      insSort (fun a b => decide (b.revenue ≤ a.revenue)) physRows }

/-- The entry point `analyze`: build the lookup, categorize every cost row,
build the results. -/
def analyze (claims : List ClaimRow) (costs : List CostRow) : Results :=
  buildResults claims (categorizeCosts (buildPhysicianLookup claims) costs)

/-! ### Derived notions used to state the claims -/

/-- Category assigned to a cost row by the categorizer. -/
def categoryOf (lookup : List LookupEntry) (r : CostRow) : Category :=
  (categorize r.patient_name lookup).1

/-- Sum of the amounts of the rows assigned a given category. -/
def sumCat (lookup : List LookupEntry) (entries : List CostRow) (c : Category) : ℚ :=
  sumAmounts (entries.filter fun r => categoryOf lookup r == c)

/-- The NameKey algorithm exactly as claim C8 words it: the characters dot,
comma and slash are REMOVED (not replaced by spaces) before splitting.
Written from the claim, to be compared with `normalize_name` from the code. -/
def normalizeKeyClaimC8 (name : String) : String :=
  if name = "" ∨ name = "nan" then ""
  else
    let s := pyLower (pyStrip name)
    let removed : String := ⟨s.data.filter fun c => !(c == '.' || c == ',' || c == '/')⟩
    String.intercalate " " (pySorted (pySplitWs removed))

/-- The NameKey algorithm as amended: the dot is removed, comma and slash are
each replaced by a space; then split on whitespace, sort, rejoin.  Written
from the amended claim wording, to be compared with `normalize_name`. -/
def normalizeKeyAmended (name : String) : String :=
  if name = "" ∨ name = "nan" then ""
  else
    let s := pyLower (pyStrip name)
    let replaced : String :=
      ⟨(s.data.filter fun c => !(c == '.')).map fun c =>
        if c = ',' ∨ c = '/' then ' ' else c⟩
    String.intercalate " " (pySorted (pySplitWs replaced))

/-- A second-ingestion run is stable when each record in turn resolves to a
patient whose `(patient_id, visit_date, service_code)` tuple is already
stored at the moment the record is processed. -/
def StableRun : DB → List VisitRow → Prop
  | _, [] => True
  | db, v :: vs => dupHolds db v = true ∧ StableRun (storeVisit db v) vs

instance instDecStableRun : (db : DB) → (vs : List VisitRow) → Decidable (StableRun db vs)
  | _, [] => isTrue trivial
  | db, v :: vs =>
    have : Decidable (StableRun (storeVisit db v) vs) := instDecStableRun (storeVisit db v) vs
    instDecidableAnd

/-! ## Properties of the similarity scorer -/

theorem lcsLen_nil_right (a : List Char) : lcsLen a [] = 0 := by
  cases a <;> rfl

theorem lcsLen_cons_cons (x y : Char) (xs ys : List Char) :
    lcsLen (x :: xs) (y :: ys) =
      if x = y then lcsLen xs ys + 1
      else max (lcsLen (x :: xs) ys) (lcsLen xs (y :: ys)) := rfl

theorem lcsLen_le_left : ∀ a b : List Char, lcsLen a b ≤ a.length := by
  intro a
  induction a with
  | nil => intro b; simp [lcsLen]
  | cons x xs ih =>
    intro b
    induction b with
    | nil => rw [lcsLen_nil_right]; exact Nat.zero_le _
    | cons y ys ihb =>
      rw [lcsLen_cons_cons]
      split
      · simpa using Nat.succ_le_succ (ih ys)
      · exact max_le (by simpa using ihb)
          (le_trans (ih (y :: ys)) (by simp))

theorem lcsLen_le_right : ∀ a b : List Char, lcsLen a b ≤ b.length := by
  intro a
  induction a with
  | nil => intro b; simp [lcsLen]
  | cons x xs ih =>
    intro b
    induction b with
    | nil => rw [lcsLen_nil_right]; exact Nat.zero_le _
    | cons y ys ihb =>
      rw [lcsLen_cons_cons]
      split
      · simpa using Nat.succ_le_succ (ih ys)
      · exact max_le (le_trans ihb (by simp)) (by simpa using ih (y :: ys))

theorem lcsLen_comm : ∀ a b : List Char, lcsLen a b = lcsLen b a := by
  intro a
  induction a with
  | nil => intro b; rw [lcsLen_nil_right]; rfl
  | cons x xs ih =>
    intro b
    induction b with
    | nil => rw [lcsLen_nil_right]; rfl
    | cons y ys ihb =>
      rw [lcsLen_cons_cons, lcsLen_cons_cons]
      by_cases hxy : x = y
      · rw [if_pos hxy, if_pos hxy.symm, ih ys]
      · rw [if_neg hxy, if_neg (Ne.symm hxy), ihb, ih (y :: ys), Nat.max_comm]

theorem lcsLen_refl : ∀ a : List Char, lcsLen a a = a.length := by
  intro a
  induction a with
  | nil => rfl
  | cons x xs ih => rw [lcsLen_cons_cons, if_pos rfl, ih]; rfl

theorem lcsLen_full_eq : ∀ a b : List Char,
    lcsLen a b = a.length → lcsLen a b = b.length → a = b := by
  intro a
  induction a with
  | nil =>
    intro b _ h2
    rw [lcsLen] at h2
    exact (List.eq_nil_of_length_eq_zero h2.symm).symm
  | cons x xs ih =>
    intro b h1 h2
    cases b with
    | nil => rw [lcsLen_nil_right] at h1; simp at h1
    | cons y ys =>
      rw [lcsLen_cons_cons] at h1 h2
      by_cases hxy : x = y
      · rw [if_pos hxy] at h1 h2
        simp only [List.length_cons, Nat.add_right_cancel_iff] at h1 h2
        rw [hxy, ih ys h1 h2]
      · exfalso
        rw [if_neg hxy] at h1 h2
        have hA := lcsLen_le_right (x :: xs) ys
        have hB := lcsLen_le_left xs (y :: ys)
        simp only [List.length_cons] at h1 h2 hB
        rcases max_choice (lcsLen (x :: xs) ys) (lcsLen xs (y :: ys)) with hm | hm <;>
          rw [hm] at h1 h2 <;> omega

theorem simScore_nonneg (a b : String) : 0 ≤ simScore a b := by
  unfold simScore
  split
  · norm_num
  · positivity

theorem simScore_le_one (a b : String) : simScore a b ≤ 1 := by
  unfold simScore
  split
  · norm_num
  · rename_i h
    have hpos : (0 : ℚ) < (a.data.length : ℚ) + (b.data.length : ℚ) := by
      have : 0 < a.data.length + b.data.length := Nat.pos_of_ne_zero h
      exact_mod_cast this
    rw [div_le_one hpos]
    have h1 := lcsLen_le_left a.data b.data
    have h2 := lcsLen_le_right a.data b.data
    have : 2 * lcsLen a.data b.data ≤ a.data.length + b.data.length := by omega
    exact_mod_cast this

theorem simScore_comm (a b : String) : simScore a b = simScore b a := by
  unfold simScore
  simp only [lcsLen_comm a.data b.data, Nat.add_comm a.data.length b.data.length,
    add_comm (a.data.length : ℚ) (b.data.length : ℚ)]

theorem simScore_eq_one_iff (a b : String) : simScore a b = 1 ↔ a = b := by
  unfold simScore
  split
  · rename_i h
    have ha : a.data = [] := List.eq_nil_of_length_eq_zero (by omega)
    have hb : b.data = [] := List.eq_nil_of_length_eq_zero (by omega)
    constructor
    · intro _
      cases a; cases b
      simp_all
    · intro _; rfl
  · rename_i h
    have hpos : (0 : ℚ) < (a.data.length : ℚ) + (b.data.length : ℚ) := by
      have : 0 < a.data.length + b.data.length := Nat.pos_of_ne_zero h
      exact_mod_cast this
    rw [div_eq_one_iff_eq (ne_of_gt hpos)]
    constructor
    · intro heq
      have hnat : 2 * lcsLen a.data b.data = a.data.length + b.data.length := by
        exact_mod_cast heq
      have h1 := lcsLen_le_left a.data b.data
      have h2 := lcsLen_le_right a.data b.data
      have hla : lcsLen a.data b.data = a.data.length := by omega
      have hlb : lcsLen a.data b.data = b.data.length := by omega
      have hdata : a.data = b.data := lcsLen_full_eq a.data b.data hla hlb
      cases a; cases b
      simp_all
    · intro heq
      subst heq
      rw [lcsLen_refl]
      ring

/-- C9: the similarity score used for matching lies in the unit interval, is
symmetric, and equals 1 exactly when the two strings are identical. -/
theorem simScore_unit_symm_one (a b : String) :
    0 ≤ simScore a b ∧ simScore a b ≤ 1 ∧ simScore a b = simScore b a ∧
      (simScore a b = 1 ↔ a = b) :=
  ⟨simScore_nonneg a b, simScore_le_one a b, simScore_comm a b,
    simScore_eq_one_iff a b⟩

/-! ## The name normalizer (claim C8) -/

theorem replChar_pipeline (l : List Char) :
    l.filterMap replChar =
      (l.filter fun c => !(c == '.')).map fun c =>
        if c = ',' ∨ c = '/' then ' ' else c := by
  induction l with
  | nil => rfl
  | cons c cs ih =>
    by_cases h1 : c = '.'
    · subst h1
      show List.filterMap replChar cs =
        List.map (fun c => if c = ',' ∨ c = '/' then ' ' else c)
          (List.filter (fun c => !(c == '.')) cs)
      exact ih
    · by_cases h2 : c = ','
      · subst h2
        show ' ' :: List.filterMap replChar cs =
          ' ' :: List.map (fun c => if c = ',' ∨ c = '/' then ' ' else c)
            (List.filter (fun c => !(c == '.')) cs)
        rw [ih]
      · by_cases h3 : c = '/'
        · subst h3
          show ' ' :: List.filterMap replChar cs =
            ' ' :: List.map (fun c => if c = ',' ∨ c = '/' then ' ' else c)
              (List.filter (fun c => !(c == '.')) cs)
          rw [ih]
        · have e1 : replChar c = some c := by simp [replChar, h1, h2, h3]
          have e2 : (!(c == '.')) = true := by simp [h1]
          have e3 : (if c = ',' ∨ c = '/' then ' ' else c) = c := if_neg (by tauto)
          rw [List.filterMap_cons, e1, List.filter_cons, if_pos e2,
            List.map_cons, e3, ih]

/-- C8 counterexample: the claim says the characters dot, comma and slash are
removed; the code instead replaces comma (and slash) by a space, so a comma
not followed by a space still separates two tokens. -/
theorem normalize_name_comma_counterexample :
    normalize_name "Smith,John" = "john smith" ∧
    normalizeKeyClaimC8 "Smith,John" = "smithjohn" ∧
    normalize_name "Smith,John" ≠ normalizeKeyClaimC8 "Smith,John" := by
  refine ⟨by decide, by decide, by decide⟩

/-- C8 as amended: the normalizer returns the empty string on empty or
literal-nan input and otherwise trims, lower-cases, removes the dot,
replaces comma and slash each by a space, splits on whitespace, sorts the
tokens and rejoins them with single spaces; the three example spellings all
normalize to the same key. -/
theorem normalize_name_algorithm :
    (∀ name : String, normalize_name name = normalizeKeyAmended name) ∧
    normalize_name "" = "" ∧ normalize_name "nan" = "" ∧
    normalize_name "Smith, John" = "john smith" ∧
    normalize_name "John Smith" = normalize_name "Smith, John" ∧
    normalize_name "  smith   JOHN " = normalize_name "Smith, John" := by
  refine ⟨?_, by decide, by decide, by decide, by decide, by decide⟩
  intro name
  simp only [normalize_name, normalizeKeyAmended, replChar_pipeline]

/-! ## The cost categorizer (claims C1 and C5) -/

/-- C1 counterexample: a raw name consisting of a single dot normalizes to
the empty string, yet the categorizer returns UNMATCHED, not NO_PATIENT,
because the code tests the stripped raw name, not the normalized key. -/
theorem categorize_dot_counterexample :
    normalize_name "." = "" ∧
    (categorize "." []).1 ≠ Category.NO_PATIENT ∧
    categorize "." [] = (Category.UNMATCHED, none, none) := by
  refine ⟨by decide, by decide, by decide⟩

/-- C1 as amended: the categorizer returns NO_PATIENT — with no matched
physician and no matched claim name — exactly when the whitespace-stripped
raw name is the empty string or the literal nan string. -/
theorem categorize_no_patient_iff_blank (raw : String) (lookup : List LookupEntry) :
    ((pyStrip raw = "" ∨ pyStrip raw = "nan") →
      categorize raw lookup = (Category.NO_PATIENT, none, none)) ∧
    ((categorize raw lookup).1 = Category.NO_PATIENT →
      (pyStrip raw = "" ∨ pyStrip raw = "nan")) := by
  constructor
  · intro h
    simp only [categorize]
    rw [if_pos h]
  · intro h
    by_cases hc : pyStrip raw = "" ∨ pyStrip raw = "nan"
    · exact hc
    · exfalso
      simp only [categorize] at h
      rw [if_neg hc] at h
      split at h
      · simp at h
      · split at h
        · simp at h
        · split at h
          · split at h <;> simp at h
          · simp at h

theorem categorize_no_patient_iff_blank_witness :
    categorize "nan" [] = (Category.NO_PATIENT, none, none) :=
  (categorize_no_patient_iff_blank "nan" []).1 (Or.inr (by decide))

/-- C5 counterexample: the raw name consisting of the keyword see-plus-space
contains an overhead keyword as a (case-insensitive) substring, yet the
categorizer strips trailing whitespace first, so the keyword test misses and
the entry is classified UNMATCHED, not OVERHEAD. -/
theorem overhead_trailing_space_counterexample :
    overhead_keywords.any (fun kw => pyContains (pyLower "see ") kw) = true ∧
    pyStrip "see " ≠ "" ∧
    categorize "see " [] = (Category.UNMATCHED, none, none) := by
  refine ⟨by decide, by decide, by decide⟩

/-- C5 as amended: whenever the whitespace-stripped raw name contains (as a
case-insensitive substring) one of the fixed overhead keywords, the
categorizer returns OVERHEAD before any exact or fuzzy matching; in
particular the Total October Payroll row is OVERHEAD. -/
theorem categorize_overhead_of_trimmed_keyword :
    (∀ (raw : String) (lookup : List LookupEntry),
      overhead_keywords.any (fun kw => pyContains (pyLower (pyStrip raw)) kw) = true →
      categorize raw lookup = (Category.OVERHEAD, none, none)) ∧
    categorize "Total October Payroll" [] = (Category.OVERHEAD, none, none) := by
  constructor
  · intro raw lookup h
    have h1 : pyStrip raw ≠ "" := by
      intro e; rw [e] at h; exact absurd h (by decide)
    have h2 : pyStrip raw ≠ "nan" := by
      intro e; rw [e] at h; exact absurd h (by decide)
    simp only [categorize]
    rw [if_neg (by tauto), if_pos h]
  · decide

theorem categorize_overhead_of_trimmed_keyword_witness :
    categorize "pay" [] = (Category.OVERHEAD, none, none) :=
  categorize_overhead_of_trimmed_keyword.1 "pay" [] (by decide)

/-! ## The partition invariant (claim C4) -/

/-- C4: every cost entry gets exactly one category, and the four per-category
amount sums add up exactly to the total of all cost amounts. -/
theorem cost_category_partition (lookup : List LookupEntry) (entries : List CostRow) :
    sumCat lookup entries Category.MATCHED + sumCat lookup entries Category.UNMATCHED +
      sumCat lookup entries Category.OVERHEAD +
      sumCat lookup entries Category.NO_PATIENT = sumAmounts entries ∧
    ∀ r ∈ entries, ∃! c, categoryOf lookup r = c := by
  refine ⟨?_, fun r _ => ⟨categoryOf lookup r, rfl, fun y hy => hy.symm⟩⟩
  induction entries with
  | nil => simp [sumCat, sumAmounts]
  | cons r rs ih =>
    simp only [sumCat, List.filter_cons, sumAmounts] at ih ⊢
    cases h : categoryOf lookup r <;>
      simp only [h, beq_self_eq_true, if_true, beq_iff_eq, reduceCtorEq, if_false,
        List.map_cons, List.sum_cons] <;>
      linarith [ih]

theorem cost_category_partition_witness :
    (sumCat [("doe jane", "Dr. A", "Doe, Jane")] [⟨"Jane Doe", "N", 3⟩, ⟨"pay", "N", 1⟩]
        Category.MATCHED +
      sumCat [("doe jane", "Dr. A", "Doe, Jane")] [⟨"Jane Doe", "N", 3⟩, ⟨"pay", "N", 1⟩]
        Category.UNMATCHED +
      sumCat [("doe jane", "Dr. A", "Doe, Jane")] [⟨"Jane Doe", "N", 3⟩, ⟨"pay", "N", 1⟩]
        Category.OVERHEAD +
      sumCat [("doe jane", "Dr. A", "Doe, Jane")] [⟨"Jane Doe", "N", 3⟩, ⟨"pay", "N", 1⟩]
        Category.NO_PATIENT
      = sumAmounts [⟨"Jane Doe", "N", 3⟩, ⟨"pay", "N", 1⟩]) ∧
    ∃! c, categoryOf [("doe jane", "Dr. A", "Doe, Jane")] ⟨"Jane Doe", "N", 3⟩ = c := by
  have h := cost_category_partition [("doe jane", "Dr. A", "Doe, Jane")]
    [⟨"Jane Doe", "N", 3⟩, ⟨"pay", "N", 1⟩]
  exact ⟨h.1, h.2 ⟨"Jane Doe", "N", 3⟩ (by decide)⟩

/-! ## The profitability margins (claim C6) -/

theorem pyRound1_zero : pyRound1 0 = 0 := by decide

theorem mem_insertLe {α : Type} (le : α → α → Bool) (x y : α) (l : List α) :
    y ∈ insertLe le x l ↔ y = x ∨ y ∈ l := by
  induction l with
  | nil => simp [insertLe]
  | cons z zs ih =>
    simp only [insertLe]
    split
    · simp [List.mem_cons]
    · simp only [List.mem_cons, ih]
      tauto

theorem mem_insSort {α : Type} (le : α → α → Bool) (y : α) (l : List α) :
    y ∈ insSort le l ↔ y ∈ l := by
  induction l with
  | nil => simp [insSort]
  | cons x xs ih =>
    simp only [insSort, mem_insertLe, List.mem_cons, ih]

theorem mem_by_physician (claims : List ClaimRow) (cat : List CatRow) (p : PhysRow)
    (hp : p ∈ (buildResults claims cat).by_physician) :
    ∃ k, p = mkPhysRow claims (cat.filter fun r => r.category == Category.MATCHED) k := by
  have h1 : p ∈ (groupKeys (claims.map (·.physician))).map
      (mkPhysRow claims (cat.filter fun r => r.category == Category.MATCHED)) :=
    (mem_insSort _ p _).mp hp
  rcases List.mem_map.mp h1 with ⟨k, _, hk⟩
  exact ⟨k, hk.symm⟩

theorem mkPhysRow_margin_zero (claims : List ClaimRow) (matched : List CatRow) (k : String)
    (h : (mkPhysRow claims matched k).revenue = 0) :
    (mkPhysRow claims matched k).margin = 0 := by
  have hm : (mkPhysRow claims matched k).margin =
      pyRound1 (if (mkPhysRow claims matched k).revenue > 0
        then (mkPhysRow claims matched k).profit / (mkPhysRow claims matched k).revenue * 100
        else 0) := rfl
  rw [hm, h, if_neg (lt_irrefl (0 : ℚ)), pyRound1_zero]

/-- C6 counterexample: with revenue 3 and costs 2 the stored profit margin is
the rounded value 33.3, not the exact ratio 100/3 the claim asserts. -/
theorem profit_margin_rounding_counterexample :
    (analyze [⟨"Doe, Jane", "Dr. A", "cc", 3, 3⟩] [⟨"x", "E", 2⟩]).overall.total_revenue = 3 ∧
    (analyze [⟨"Doe, Jane", "Dr. A", "cc", 3, 3⟩] [⟨"x", "E", 2⟩]).overall.gross_profit = 1 ∧
    (analyze [⟨"Doe, Jane", "Dr. A", "cc", 3, 3⟩] [⟨"x", "E", 2⟩]).overall.profit_margin ≠
      (analyze [⟨"Doe, Jane", "Dr. A", "cc", 3, 3⟩] [⟨"x", "E", 2⟩]).overall.gross_profit /
        (analyze [⟨"Doe, Jane", "Dr. A", "cc", 3, 3⟩] [⟨"x", "E", 2⟩]).overall.total_revenue
        * 100 := by
  refine ⟨by decide, by decide, by decide⟩

/-- C6 as amended: gross profit is exactly revenue minus costs; the stored
profit margin is the one-decimal rounding of profit over revenue times 100
under an explicit positive-revenue guard, and is exactly 0 on zero revenue;
the same guard and rounding apply to every per-physician margin. -/
theorem margins_guarded_and_rounded (claims : List ClaimRow) (costs : List CostRow) :
    (analyze claims costs).overall.gross_profit =
      (analyze claims costs).overall.total_revenue -
        (analyze claims costs).overall.total_costs ∧
    (analyze claims costs).overall.profit_margin =
      pyRound1 (if (analyze claims costs).overall.total_revenue > 0
        then (analyze claims costs).overall.gross_profit /
          (analyze claims costs).overall.total_revenue * 100
        else 0) ∧
    ((analyze claims costs).overall.total_revenue = 0 →
      (analyze claims costs).overall.profit_margin = 0) ∧
    ∀ p ∈ (analyze claims costs).by_physician,
      p.profit = p.revenue - p.direct_costs ∧
      p.margin = pyRound1 (if p.revenue > 0 then p.profit / p.revenue * 100 else 0) ∧
      (p.revenue = 0 → p.margin = 0) := by
  have hmargin : (analyze claims costs).overall.profit_margin =
      pyRound1 (if (analyze claims costs).overall.total_revenue > 0
        then (analyze claims costs).overall.gross_profit /
          (analyze claims costs).overall.total_revenue * 100
        else 0) := rfl
  refine ⟨rfl, hmargin, ?_, ?_⟩
  · intro h
    rw [hmargin, h, if_neg (lt_irrefl (0 : ℚ)), pyRound1_zero]
  · intro p hp
    rcases mem_by_physician claims _ p hp with ⟨k, hk⟩
    subst hk
    exact ⟨rfl, rfl, fun h => mkPhysRow_margin_zero _ _ _ h⟩

theorem margins_guarded_and_rounded_witness :
    (analyze [] []).overall.profit_margin = 0 ∧
    ∃ p, p ∈ (analyze [⟨"a", "Dr. A", "k", 3, 3⟩] []).by_physician ∧
      p.margin = pyRound1 (if p.revenue > 0 then p.profit / p.revenue * 100 else 0) := by
  constructor
  · exact (margins_guarded_and_rounded [] []).2.2.1 (by decide)
  · refine ⟨mkPhysRow [⟨"a", "Dr. A", "k", 3, 3⟩] [] "Dr. A", by decide, ?_⟩
    exact ((margins_guarded_and_rounded [⟨"a", "Dr. A", "k", 3, 3⟩] []).2.2.2 _
      (by decide)).2.1

theorem normalize_name_algorithm_witness :
    normalize_name "Smith, John" = normalizeKeyAmended "Smith, John" :=
  normalize_name_algorithm.1 "Smith, John"

theorem simScore_unit_symm_one_witness :
    0 ≤ simScore "ab" "ba" ∧ simScore "ab" "ba" ≤ 1 ∧
      simScore "ab" "ba" = simScore "ba" "ab" ∧
      (simScore "ab" "ba" = 1 ↔ "ab" = "ba") :=
  simScore_unit_symm_one "ab" "ba"

/-! ## The identity resolver (claims C2, C3, C10) -/

theorem fuzzyFold_mem (full : String) :
    ∀ (l : List Patient) (acc : ℚ × Option Nat) (n : Nat),
      (l.foldl (fuzzyFold full) acc).2 = some n →
      (∃ p ∈ l, p.patient_id = n) ∨ acc.2 = some n := by
  intro l
  induction l with
  | nil => intro acc n h; exact Or.inr h
  | cons p ps ih =>
    intro acc n h
    rw [List.foldl_cons] at h
    rcases ih (fuzzyFold full acc p) n h with h1 | h1
    · rcases h1 with ⟨q, hq, hqn⟩
      exact Or.inl ⟨q, List.mem_cons_of_mem _ hq, hqn⟩
    · simp only [fuzzyFold] at h1
      split at h1
      · simp only at h1
        have : p.patient_id = n := by simpa using h1
        exact Or.inl ⟨p, List.mem_cons_self p ps, this⟩
      · exact Or.inr h1

theorem fuzzyFindPatient_mem (reg : List Patient) (first last full : String) (n : Nat)
    (h : fuzzyFindPatient reg first last full = some n) :
    n ≠ 0 ∧ ∃ p ∈ reg, p.patient_id = n := by
  simp only [fuzzyFindPatient] at h
  split at h
  · rename_i m hm
    split at h
    · exact absurd h (by simp)
    · rename_i hm0
      have hmn : m = n := by simpa using h
      subst hmn
      refine ⟨hm0, ?_⟩
      rcases fuzzyFold_mem full _ (0, none) m hm with h1 | h1
      · rcases h1 with ⟨p, hp, hpn⟩
        exact ⟨p, List.mem_of_mem_filter hp, hpn⟩
      · simp at h1
  · simp at h

/-- C2 counterexample: an empty raw name with no explicit id does not fail —
the resolver creates a patient identity with empty name and returns id 1. -/
theorem resolve_empty_name_creates_patient :
    normalize_name "" = "" ∧
    find_or_create_patient none "" [] = (1, [⟨1, "", "", ""⟩]) ∧
    ((find_or_create_patient none "" []).2).length = 1 := by
  refine ⟨by decide, by decide, by decide⟩

theorem find_or_create_mem (patientId? : Option Nat) (name : String) (reg : List Patient) :
    ∃ p ∈ (find_or_create_patient patientId? name reg).2,
      p.patient_id = (find_or_create_patient patientId? name reg).1 := by
  simp only [find_or_create_patient]
  split
  · rename_i n hn
    split at hn
    · rename_i m hm
      have hmn : m = n := by simpa using hn
      subst hmn
      split at hm
      · rename_i k hk
        split at hm
        · rename_i hcond
          have hkm : k = m := by simpa using hm
          subst hkm
          obtain ⟨p, hp, hpk⟩ := List.any_eq_true.mp hcond.2
          exact ⟨p, hp, by simpa using hpk⟩
        · simp at hm
      · simp at hm
    · rename_i hm
      obtain ⟨-, p, hp, hpn⟩ := fuzzyFindPatient_mem _ _ _ _ _ hn
      exact ⟨p, hp, hpn⟩
  · exact ⟨_, List.mem_append_right _ (List.mem_cons_self _ _), rfl⟩

theorem find_or_create_none_nofuzzy (name : String) (reg : List Patient)
    (h1 : (extract_patient_id_from_name name).1 = none)
    (h2 : fuzzyFindPatient reg (extract_patient_id_from_name name).2.1
      (extract_patient_id_from_name name).2.2.1
      (extract_patient_id_from_name name).2.2.2 = none) :
    find_or_create_patient none name reg =
      (maxPatientId reg + 1,
       reg ++ [{ patient_id := maxPatientId reg + 1,
                 patient_name := (extract_patient_id_from_name name).2.2.2,
                 first_name := (extract_patient_id_from_name name).2.1,
                 last_name := (extract_patient_id_from_name name).2.2.1 }]) := by
  simp only [find_or_create_patient, Option.isNone_none, if_true]
  rw [h1, h2]

/-- C2 as amended: the resolver has no InvalidIdentity failure.  For every
input — in particular for every raw name normalizing to empty with no
explicit id — it returns the id of an identity present in the resulting
registry; and for any name carrying no embedded id, when the fuzzy scan
finds nothing it creates a new identity with id (max existing id, or 0)+1
whose stored full name is the extracted full name of the raw string (so an
empty raw name is stored with empty name, while in-scope names such as a
bare dot or the literal nan are stored verbatim). -/
theorem resolve_never_fails :
    (∀ (patientId? : Option Nat) (name : String) (reg : List Patient),
      ∃ p ∈ (find_or_create_patient patientId? name reg).2,
        p.patient_id = (find_or_create_patient patientId? name reg).1) ∧
    (∀ (name : String) (reg : List Patient),
      (extract_patient_id_from_name name).1 = none →
      fuzzyFindPatient reg (extract_patient_id_from_name name).2.1
        (extract_patient_id_from_name name).2.2.1
        (extract_patient_id_from_name name).2.2.2 = none →
      find_or_create_patient none name reg =
        (maxPatientId reg + 1,
         reg ++ [{ patient_id := maxPatientId reg + 1,
                   patient_name := (extract_patient_id_from_name name).2.2.2,
                   first_name := (extract_patient_id_from_name name).2.1,
                   last_name := (extract_patient_id_from_name name).2.2.1 }])) :=
  ⟨find_or_create_mem, find_or_create_none_nofuzzy⟩

theorem resolve_never_fails_witness :
    (∃ p ∈ (find_or_create_patient none "." []).2,
      p.patient_id = (find_or_create_patient none "." []).1) ∧
    find_or_create_patient none "." [] = (1, [⟨1, ".", "", "."⟩]) ∧
    find_or_create_patient none "nan" [] = (1, [⟨1, "nan", "", "nan"⟩]) := by
  refine ⟨resolve_never_fails.1 none "." [], ?_, ?_⟩
  · exact (resolve_never_fails.2 "." [] (by decide) (by decide)).trans (by decide)
  · exact (resolve_never_fails.2 "nan" [] (by decide) (by decide)).trans (by decide)

/-- C3: when an explicit id is supplied and an identity with that id exists
in a well-formed registry (ids are positive, as the resolver guarantees),
resolution returns that id unchanged without touching the registry, and
resolving the same explicit id twice returns the same id. -/
theorem resolve_exact_id_short_circuit (reg : List Patient) (n : Nat) (name : String)
    (hwf : ∀ p ∈ reg, 0 < p.patient_id) (hmem : ∃ p ∈ reg, p.patient_id = n) :
    find_or_create_patient (some n) name reg = (n, reg) ∧
    find_or_create_patient (some n) name
      (find_or_create_patient (some n) name reg).2 = (n, reg) := by
  obtain ⟨p, hp, hpn⟩ := hmem
  have hn0 : n ≠ 0 := by have := hwf p hp; omega
  have hany : reg.any (fun q => q.patient_id == n) = true :=
    List.any_eq_true.mpr ⟨p, hp, by simpa using hpn⟩
  have h1 : find_or_create_patient (some n) name reg = (n, reg) := by
    simp only [find_or_create_patient, Option.isNone_some, Bool.false_eq_true,
      if_false, ne_eq, hn0, not_false_eq_true, hany, and_self, if_true]
  refine ⟨h1, ?_⟩
  rw [h1]
  exact h1

theorem resolve_exact_id_short_circuit_witness :
    find_or_create_patient (some 1) "whatever" [⟨1, "a", "", "a"⟩] =
      (1, [⟨1, "a", "", "a"⟩]) ∧
    find_or_create_patient (some 1) "whatever"
        (find_or_create_patient (some 1) "whatever" [⟨1, "a", "", "a"⟩]).2 =
      (1, [⟨1, "a", "", "a"⟩]) :=
  resolve_exact_id_short_circuit [⟨1, "a", "", "a"⟩] 1 "whatever"
    (by decide) (by decide)

theorem find_or_create_zero_id (reg : List Patient) (name : String) :
    find_or_create_patient (some 0) name reg =
      match fuzzyFindPatient reg (extract_patient_id_from_name name).2.1
          (extract_patient_id_from_name name).2.2.1
          (extract_patient_id_from_name name).2.2.2 with
      | some n => (n, reg)
      | none =>
        (maxPatientId reg + 1,
         reg ++ [{ patient_id := maxPatientId reg + 1,
                   patient_name := (extract_patient_id_from_name name).2.2.2,
                   first_name := (extract_patient_id_from_name name).2.1,
                   last_name := (extract_patient_id_from_name name).2.2.1 }]) := rfl

/-- C10: an explicit id 0 is treated as if no id were supplied — the exact-id
lookup is skipped (even when an identity with id 0 exists) and, when the
fuzzy scan finds nothing, a new patient is created with id
max-existing-plus-one rather than 0. -/
theorem resolve_zero_id_skips_lookup (reg : List Patient) (name : String)
    (h : fuzzyFindPatient reg (extract_patient_id_from_name name).2.1
      (extract_patient_id_from_name name).2.2.1
      (extract_patient_id_from_name name).2.2.2 = none) :
    find_or_create_patient (some 0) name reg =
      (maxPatientId reg + 1,
       reg ++ [{ patient_id := maxPatientId reg + 1,
                 patient_name := (extract_patient_id_from_name name).2.2.2,
                 first_name := (extract_patient_id_from_name name).2.1,
                 last_name := (extract_patient_id_from_name name).2.2.1 }]) := by
  rw [find_or_create_zero_id, h]

theorem resolve_zero_id_skips_lookup_witness :
    find_or_create_patient (some 0) "bb" [⟨0, "zz", "", "zz"⟩] =
      (1, [⟨0, "zz", "", "zz"⟩, ⟨1, "bb", "", "bb"⟩]) :=
  (resolve_zero_id_skips_lookup [⟨0, "zz", "", "zz"⟩] "bb" (by decide)).trans
    (by decide)

/-! ## The duplicate guard (claim C7) -/

/-- C7 counterexample: re-ingesting the same three-visit file is not
idempotent.  In the first run the second visit fuzzy-matches the patient
created by the first visit; in the second run a patient created later in the
first run scores higher, the visit resolves to a different patient id, the
duplicate check misses, and a fourth row is inserted. -/
theorem reingest_not_idempotent_counterexample :
    (storeVisits ⟨[], []⟩
      [⟨none, "aaaaaab", "d1", "c"⟩, ⟨none, "aaaaaaa", "d2", "c"⟩,
       ⟨none, "aaaaaaaa", "d3", "c"⟩]).visits.length = 3 ∧
    (storeVisits (storeVisits ⟨[], []⟩
        [⟨none, "aaaaaab", "d1", "c"⟩, ⟨none, "aaaaaaa", "d2", "c"⟩,
         ⟨none, "aaaaaaaa", "d3", "c"⟩])
      [⟨none, "aaaaaab", "d1", "c"⟩, ⟨none, "aaaaaaa", "d2", "c"⟩,
       ⟨none, "aaaaaaaa", "d3", "c"⟩]).visits.length = 4 := by
  refine ⟨by decide, by decide⟩

/-- C7 as amended: inserting a visit whose resolved duplicate key is already
stored is a silent no-op on the visit table, so a re-ingestion run leaves
the stored visit set unchanged provided every record again resolves to a
patient whose tuple is already stored — a condition the counterexample shows
fuzzy matching does not always guarantee. -/
theorem store_visits_stable_reingest_noop (db : DB) (vs : List VisitRow)
    (h : StableRun db vs) : (storeVisits db vs).visits = db.visits := by
  induction vs generalizing db with
  | nil => rfl
  | cons v vs ih =>
    obtain ⟨h1, h2⟩ := h
    have hv : (storeVisit db v).visits = db.visits := by
      have h1' : visitExists db.visits
          (find_or_create_patient v.patientId? v.patient_name db.patients).1 v = true := h1
      simp only [storeVisit]
      rw [if_pos h1']
    have h3 : storeVisits db (v :: vs) = storeVisits (storeVisit db v) vs := rfl
    rw [h3, ih (storeVisit db v) h2, hv]

theorem store_visits_stable_reingest_noop_witness :
    (storeVisits (storeVisits ⟨[], []⟩ [⟨none, "bob", "d", "c"⟩])
        [⟨none, "bob", "d", "c"⟩]).visits =
      (storeVisits ⟨[], []⟩ [⟨none, "bob", "d", "c"⟩]).visits :=
  store_visits_stable_reingest_noop _ _ (by decide)

end HomeHealth
